import Mathlib

/-!
Verification of the Hardcover reading-progress sync engine of the readest
repository, shallowly embedded from
`apps/readest-app/src/services/sync/HardcoverClient.ts` and
`apps/readest-app/src/app/reader/hooks/useHardcoverSync.ts`.

Conventions of the embedding:
* JavaScript timestamps (`Date.now()`) are `Int` milliseconds; the sentinel
  value `-1` used by `recordSuccess` is representable.
* `string.includes(pat)` is modelled as a substring test on the character
  lists of the strings.
* Asynchronous methods are modelled as pure functions over an explicit
  network-outcome parameter; thrown JS exceptions become `Except String`.
* JavaScript number truthiness (`if (x)`) on optional numbers and strings is
  modelled explicitly (`none` and `0` resp. `""` are falsy).
-/

namespace Readest

/-- `charsStartWith pat text` is true when `pat` is an initial segment of
`text` (character lists). -/
def charsStartWith : List Char → List Char → Bool
  | [], _ => true
  | _ :: _, [] => false
  | a :: as, b :: bs => a = b && charsStartWith as bs

/-- `charsContain pat text` is true when `pat` occurs contiguously inside
`text`. -/
def charsContain (pat : List Char) : List Char → Bool
  | [] => charsStartWith pat []
  | c :: rest => charsStartWith pat (c :: rest) || charsContain pat rest

/-- Model of JavaScript `s.includes(pat)`. -/
def strIncludes (s pat : String) : Bool :=
  charsContain pat.data s.data

/-- Model of JavaScript `s.startsWith(pat)`. -/
def strStarts (s pat : String) : Bool :=
  charsStartWith pat.data s.data

/-! ## Circuit breaker (Failure Gate), from `HardcoverClient.ts` -/

/-- `RATE_LIMIT_WINDOW = 60000` (one minute, in ms). -/
def RATE_LIMIT_WINDOW : Int := 60000

/-- `CIRCUIT_BREAKER_THRESHOLD = 3`: open the circuit after 3 consecutive
failures. -/
def CIRCUIT_BREAKER_THRESHOLD : Nat := 3

/-- `CIRCUIT_BREAKER_TIMEOUT = 60000`: try again after 1 minute. -/
def CIRCUIT_BREAKER_TIMEOUT : Int := 60000

/-- `CIRCUIT_BREAKER_HALF_OPEN_REQUESTS = 1`: allow 1 request in half-open
state. -/
def CIRCUIT_BREAKER_HALF_OPEN_REQUESTS : Nat := 1

/-- The `CircuitState` enum of the source. -/
inductive CircuitState where
  | CLOSED
  | OPEN
  | HALF_OPEN
deriving DecidableEq, Repr

/-- The fields of the singleton `CircuitBreakerState` class. -/
structure CircuitBreakerState where
  state : CircuitState
  failureCount : Nat
  lastFailureTime : Int
  halfOpenAttempts : Nat
  hasNotifiedDisconnect : Bool
deriving DecidableEq, Repr

/-- The freshly constructed circuit breaker singleton. -/
def initialBreaker : CircuitBreakerState :=
  { state := .CLOSED
    failureCount := 0
    lastFailureTime := 0
    halfOpenAttempts := 0
    hasNotifiedDisconnect := false }

/-- Return value of `canMakeRequest`: the (possibly mutated) breaker plus the
`{ allowed, reason }` record returned to the caller. -/
structure AdmitOut where
  cb : CircuitBreakerState
  allowed : Bool
  reason : Option String
deriving DecidableEq, Repr

/-- The human-readable wait message built in the `OPEN` branch of
`canMakeRequest` (`Math.ceil` of the remaining ms over 1000). -/
def circuitOpenWaitReason (now lastFailureTime : Int) : String :=
  let waitTime := (CIRCUIT_BREAKER_TIMEOUT - (now - lastFailureTime) + 999) / 1000
  "Circuit breaker is open. Hardcover service unavailable. Retry in " ++
    toString waitTime ++ "s."

/-- `HardcoverClient.canMakeRequest`, with `Date.now()` passed in as `now`.
Mutation of the shared breaker is made explicit in the returned `cb`. -/
def canMakeRequest (cb : CircuitBreakerState) (now : Int) : AdmitOut :=
  match cb.state with
  | .CLOSED => ⟨cb, true, none⟩
  | .OPEN =>
    if CIRCUIT_BREAKER_TIMEOUT ≤ now - cb.lastFailureTime then
      ⟨{ cb with state := .HALF_OPEN, halfOpenAttempts := 0 }, true, none⟩
    else
      ⟨cb, false, some (circuitOpenWaitReason now cb.lastFailureTime)⟩
  | .HALF_OPEN =>
    if cb.halfOpenAttempts < CIRCUIT_BREAKER_HALF_OPEN_REQUESTS then
      ⟨{ cb with halfOpenAttempts := cb.halfOpenAttempts + 1 }, true, none⟩
    else
      ⟨cb, false, some "Circuit breaker is testing service recovery. Please wait."⟩

/-- `HardcoverClient.recordSuccess`: a success in `HALF_OPEN` closes the gate
and sets the `-1` recovery sentinel; any success zeroes `failureCount`. -/
def recordSuccess (cb : CircuitBreakerState) : CircuitBreakerState :=
  let cb1 :=
    if cb.state = CircuitState.HALF_OPEN then
      { cb with state := .CLOSED, lastFailureTime := -1 }
    else cb
  { cb1 with failureCount := 0 }

/-- `HardcoverClient.recordFailure error`: the counter and the failure time
are updated first; an error whose message includes `AUTH_FAILED` then returns
early, before any state transition. -/
def recordFailure (cb : CircuitBreakerState) (error : String) (now : Int) :
    CircuitBreakerState :=
  let cb1 := { cb with failureCount := cb.failureCount + 1, lastFailureTime := now }
  if strIncludes error "AUTH_FAILED" then cb1
  else if cb1.state = CircuitState.HALF_OPEN then
    { cb1 with state := .OPEN, failureCount := CIRCUIT_BREAKER_THRESHOLD }
  else if CIRCUIT_BREAKER_THRESHOLD ≤ cb1.failureCount then
    { cb1 with state := .OPEN }
  else cb1

/-- Outcome of the network phase of `graphqlRequest`, supplied by the
environment: a clean 200 response, a non-ok HTTP status, a 200 response whose
body carries a GraphQL `errors` array (first message given), or an exception
thrown by `fetch` itself. -/
inductive NetOutcome where
  | okData
  | httpStatus (status : Nat)
  | gqlErrors (msg : String)
  | fetchThrown (msg : String)
deriving DecidableEq, Repr

/-- Error classification of a non-ok HTTP status in `graphqlRequest`. -/
def classifyStatus (status : Nat) : String :=
  if status = 401 then "HARDCOVER_AUTH_FAILED"
  else if status = 429 then "HARDCOVER_RATE_LIMIT"
  else if 500 ≤ status then "HARDCOVER_SERVER_ERROR"
  else "HARDCOVER_API_ERROR_" ++ toString status

/-- Error classification of a GraphQL-embedded error message in
`graphqlRequest`. -/
def classifyGqlMessage (msg : String) : String :=
  if strIncludes msg "403" || strIncludes msg "Forbidden" then "HARDCOVER_AUTH_FAILED"
  else if strIncludes msg "401" || strIncludes msg "Unauthorized" then "HARDCOVER_AUTH_FAILED"
  else if strIncludes msg "429" || strIncludes msg "rate limit" then "HARDCOVER_RATE_LIMIT"
  else "HARDCOVER_GRAPHQL_ERROR: " ++ msg

/-- `HardcoverClient.graphqlRequest`, abstracted over the network outcome.
Returns the breaker after the call, the thrown error (if any) and whether the
network was touched at all.  The rate-limit delay is not modelled here (it
only delays, never changes the result); HTTP-status errors are thrown inside
the `try` block and re-thrown by the `HARDCOVER_`-prefixed catch clause
without any `recordFailure`, exactly as in the source. -/
def graphqlRequest (cb : CircuitBreakerState) (now : Int) (hasToken : Bool)
    (net : NetOutcome) : CircuitBreakerState × Except String Unit × Bool :=
  let r := canMakeRequest cb now
  if r.allowed = false then
    (r.cb, Except.error ("HARDCOVER_CIRCUIT_OPEN: " ++ r.reason.getD ""), false)
  else if hasToken = false then
    (r.cb, Except.error "HARDCOVER_AUTH_FAILED", false)
  else
    match net with
    | .okData => (recordSuccess r.cb, Except.ok (), true)
    | .httpStatus s => (r.cb, Except.error (classifyStatus s), true)
    | .gqlErrors msg =>
      let m := classifyGqlMessage msg
      (recordFailure r.cb m now, Except.error m, true)
    | .fetchThrown msg =>
      if strStarts msg "HARDCOVER_" then (r.cb, Except.error msg, true)
      else if strIncludes msg "fetch" || strIncludes msg "network" then
        (recordFailure r.cb "HARDCOVER_NETWORK_ERROR" now,
          Except.error "HARDCOVER_NETWORK_ERROR", true)
      else (recordFailure r.cb msg now, Except.error msg, true)

/-- Result of running a sequence of admission checks (no success/failure
recorded in between): final breaker and how many were admitted. -/
structure SeqOut where
  cb : CircuitBreakerState
  admitted : Nat
deriving DecidableEq, Repr

/-- Run `canMakeRequest` on a list of request times, counting admissions. -/
def admitSeq (cb : CircuitBreakerState) (ts : List Int) : SeqOut :=
  ts.foldl
    (fun acc t =>
      let r := canMakeRequest acc.cb t
      ⟨r.cb, acc.admitted + (if r.allowed then 1 else 0)⟩)
    ⟨cb, 0⟩

/-- Fold a list of recorded failures (error message, time) over the breaker. -/
def failSeq (cb : CircuitBreakerState) (evs : List (String × Int)) :
    CircuitBreakerState :=
  evs.foldl (fun c e => recordFailure c e.1 e.2) cb

/-! ## Rate limiter (Request Throttle), from `HardcoverClient.checkRateLimit` -/

/-- `config.rateLimitBuffer || 50`: a missing or zero configured budget falls
back to 50. -/
def effectiveBuffer (rateLimitBuffer : Nat) : Nat :=
  if rateLimitBuffer = 0 then 50 else rateLimitBuffer

/-- One `checkRateLimit` call: the retained timestamp list after the age
filter (before the push), the timestamp the delay is computed from
(`requestTimestamps[0]`), the new stored list, and the time at which the
caller is admitted (`now` plus the sleep, if any). -/
structure ThrottleOut where
  retained : List Int
  newList : List Int
  admitAt : Int
deriving DecidableEq, Repr

/-- `HardcoverClient.checkRateLimit` with `Date.now()` passed in as `now`.
Timestamps older than `RATE_LIMIT_WINDOW` are discarded; if at least `buffer`
remain the caller sleeps until the oldest retained timestamp leaves the
window plus a 100 ms margin; the pre-sleep `now` is then pushed.  The request
is always admitted, never rejected. -/
def checkRateLimit (buffer : Nat) (stored : List Int) (now : Int) : ThrottleOut :=
  let ts := stored.filter (fun t => now - t < RATE_LIMIT_WINDOW)
  if buffer ≤ ts.length then
    let oldest := ts.headD 0
    let waitTime := RATE_LIMIT_WINDOW - (now - oldest) + 100
    let admitAt := if 0 < waitTime then now + waitTime else now
    ⟨ts, ts ++ [now], admitAt⟩
  else
    ⟨ts, ts ++ [now], now⟩

/-- Run `checkRateLimit` over a list of arrival times, collecting each call's
output. -/
def throttleOuts (buffer : Nat) (stored : List Int) : List Int → List ThrottleOut
  | [] => []
  | now :: rest =>
    let s := checkRateLimit buffer stored now
    s :: throttleOuts buffer s.newList rest

/-- The admission times of a run that starts from an empty timestamp list. -/
def throttleAdmissions (buffer : Nat) (arrivals : List Int) : List Int :=
  (throttleOuts buffer [] arrivals).map (·.admitAt)

/-- A sequentially valid call trace: each call starts no earlier than the
previous call's admission time (`lastAdmit`), since `checkRateLimit` runs to
completion — including its sleep — before the request proceeds and the next
sequential request can run. -/
def throttleValid (buffer : Nat) (stored : List Int) (lastAdmit : Int) :
    List Int → Prop
  | [] => True
  | now :: rest =>
    lastAdmit ≤ now ∧
      throttleValid buffer (checkRateLimit buffer stored now).newList
        (checkRateLimit buffer stored now).admitAt rest

/-- Invariant of the stored timestamp list: from the moment `lastAdmit` of
the latest call onwards, at most `buffer` stored timestamps are younger than
the window. -/
def throttleInv (buffer : Nat) (stored : List Int) (lastAdmit : Int) : Prop :=
  ∀ t : Int, lastAdmit ≤ t →
    (stored.filter (fun x => t - x < RATE_LIMIT_WINDOW)).length ≤ buffer

/-! ## Progress Translator, from `useHardcoverSync.ts`
(`pushProgressInternal` page mapping and `pullProgress` reverse mapping) -/

/-- JavaScript `Math.round (num / den)` for nonnegative integers `num` and
positive `den`: round half up. -/
def jround (num den : Nat) : Nat := (2 * num + den) / (2 * den)

/-- The push-side page mapping of `pushProgressInternal` for reflowable
content: when a remote total is cached (truthy) and differs from the local
total, send `Math.round((localPage / localTotalPages) * remoteTotal)`,
otherwise send the raw local page. -/
def mapLocalToRemote (localPage localTotalPages remoteTotal : Nat) : Nat :=
  if remoteTotal ≠ 0 ∧ remoteTotal ≠ localTotalPages then
    jround (localPage * remoteTotal) localTotalPages
  else localPage

/-- The pull-side page mapping of `pullProgress` for reflowable content: when
a remote total is known (truthy) and differs from the local total, map
`Math.round((remotePageRaw / remoteTotal) * localTotalPages)`, otherwise use
the raw remote page. -/
def mapRemoteToLocal (remotePageRaw remoteTotal localTotalPages : Nat) : Nat :=
  if remoteTotal ≠ 0 ∧ remoteTotal ≠ localTotalPages then
    jround (remotePageRaw * localTotalPages) remoteTotal
  else remotePageRaw

/-! ## Conflict Resolver, from `useHardcoverSync.pullProgress` -/

/-- The `HardcoverSyncStrategy` enum of the settings. -/
inductive HcStrategy where
  | prompt
  | silent
  | send
  | receive
deriving DecidableEq, Repr

/-- What `pullProgress` does once it would reach the remote snapshot:
`noRemoteFetch` is the `strategy === 'send'` early return (mark synced before
any network read), `applyRemote` navigates to the remote position, `conflict`
raises a ConflictRecord dialog, `synced` takes no action. -/
inductive PullAction where
  | noRemoteFetch
  | applyRemote
  | conflict
  | synced
deriving DecidableEq, Repr

/-- The policy dispatch of `pullProgress`, given the two progress percentages
and timestamps of the remote and local snapshots.  `remoteIsNewer` is
`remoteTimestamp > localTimestamp` (strict), `percentageDiff` is
`Math.abs(remotePercentage - localPercentage)`, and the conflict threshold is
the literal `0.05`. -/
def pullDecision (strategy : HcStrategy) (remotePct localPct : ℚ)
    (remoteTs localTs : Int) : PullAction :=
  if strategy = HcStrategy.send then .noRemoteFetch
  else
    let remoteIsNewer : Bool := localTs < remoteTs
    let percentageDiff : ℚ := |remotePct - localPct|
    if strategy = HcStrategy.receive ∨
        (strategy = HcStrategy.silent ∧ remoteIsNewer = true) then
      .applyRemote
    else if strategy = HcStrategy.prompt ∧ (5 : ℚ) / 100 < percentageDiff then
      .conflict
    else .synced

/-! ## Book Matcher, from `HardcoverClient.matchBook`,
`stringSimilarity` and `levenshteinDistance` -/

/-- One inner loop of the `levenshteinDistance` dynamic-programming matrix:
given the current character `c2` of `str2`, the remaining characters of
`str1` paired with the previous row entries `matrix[i-1][j]` (for `j ≥ 1`),
the diagonal entry `matrix[i-1][j-1]` and the entry to the left
`matrix[i][j-1]`, produce the rest of row `i`. -/
def levRowAux (c2 : Char) : List (Char × Nat) → Nat → Nat → List Nat
  | [], _, _ => []
  | (c1, up) :: rest, diag, left =>
    let v := if c2 = c1 then diag else Nat.min (diag + 1) (Nat.min (left + 1) (up + 1))
    v :: levRowAux c2 rest up v

/-- `HardcoverClient.levenshteinDistance str1 str2`: the textbook DP matrix,
built row by row over `str2` starting from row `[0, 1, ..., str1.length]`;
the answer is `matrix[str2.length][str1.length]`. -/
def levenshteinDistance (str1 str2 : List Char) : Nat :=
  let row0 : List Nat := List.range (str1.length + 1)
  let finalRow :=
    (str2.foldl
      (fun (acc : List Nat × Nat) c2 =>
        let prev := acc.1
        let i := acc.2 + 1
        (i :: levRowAux c2 (str1.zip (prev.drop 1)) (prev.headD 0) i, i))
      (row0, 0)).1
  finalRow.getLastD 0

/-- ASCII model of JavaScript `toLowerCase()` on one character (all strings
compared by the matcher in the claims are ASCII). -/
def charLower (c : Char) : Char :=
  if 'A' ≤ c ∧ c ≤ 'Z' then Char.ofNat (c.toNat + 32) else c

/-- ASCII model of JavaScript `s.toLowerCase()`. -/
def strLower (s : String) : String := ⟨s.data.map charLower⟩

/-- `str1.length > str2.length ? str1 : str2` of `stringSimilarity`. -/
def longerOf (str1 str2 : String) : String :=
  if str2.length < str1.length then str1 else str2

/-- `str1.length > str2.length ? str2 : str1` of `stringSimilarity`. -/
def shorterOf (str1 str2 : String) : String :=
  if str2.length < str1.length then str2 else str1

/-- `HardcoverClient.stringSimilarity`: pick the longer of the two strings
(ties go to `str2`), return 1 for two empty strings, else
`(longer.length - editDistance) / longer.length` as an exact rational. -/
def stringSimilarity (str1 str2 : String) : ℚ :=
  if (longerOf str1 str2).length = 0 then 1
  else
    (((longerOf str1 str2).length : ℚ) -
        (levenshteinDistance (longerOf str1 str2).data (shorterOf str1 str2).data : ℚ)) /
      ((longerOf str1 str2).length : ℚ)

/-- A search candidate as consumed by the scoring loop of `matchBook`: its
title and its contributor names (joined with spaces before comparison). -/
structure HBook where
  title : String
  authors : List String
deriving DecidableEq, Repr

/-- The score of one candidate in `matchBook`:
`stringSimilarity(title, hb.title) * 70 + stringSimilarity(author, joined authors) * 30`,
all lower-cased first. -/
def candidateScore (bookTitle bookAuthor : String) (hb : HBook) : ℚ :=
  stringSimilarity (strLower bookTitle) (strLower hb.title) * 70 +
    stringSimilarity (strLower bookAuthor)
      (strLower (String.intercalate " " hb.authors)) * 30

/-- One comparison step of best-candidate selection: keep the earlier
candidate on ties (stability of the descending sort). -/
def pickStep (best : Option (HBook × ℚ)) (p : HBook × ℚ) : Option (HBook × ℚ) :=
  match best with
  | none => some p
  | some b => if b.2 < p.2 then some p else some b

/-- `scored.sort((a, b) => b.score - a.score)` followed by `scored[0]`: the
first candidate of maximal score (stable descending sort). -/
def pickBest (scored : List (HBook × ℚ)) : Option (HBook × ℚ) :=
  scored.foldl pickStep none

/-- The title/author scoring path of `HardcoverClient.matchBook` (the ISBN
exact-match step is bypassed when the local book carries no ISBN): score all
candidates, take the best, return it only when its score is strictly greater
than 60, else report no match. -/
def matchBookScoring (bookTitle bookAuthor : String) (results : List HBook) :
    Option HBook :=
  match pickBest (results.map fun hb => (hb, candidateScore bookTitle bookAuthor hb)) with
  | none => none
  | some (hb, score) => if 60 < score then some hb else none

/-! ## Duplicate-session cleanup, from `HardcoverClient.cleanupDuplicateReads`
and `deleteRead` -/

/-- A remote read session row as used by the cleanup: its id and its
`progress_pages` (null treated as 0 via `|| 0`). -/
structure ReadSession where
  id : Int
  progress_pages : Option Int
deriving DecidableEq, Repr

/-- The `{ deleted, kept? }` object returned by `cleanupDuplicateReads`;
`kept` is the id of the read that was kept. -/
structure CleanupResult where
  deleted : Nat
  kept : Option Int
deriving DecidableEq, Repr

/-- `read.progress_pages || 0`. -/
def sessionProgress (r : ReadSession) : Int := r.progress_pages.getD 0

/-- The best-read selection loop of `cleanupDuplicateReads`: start from
`reads[0]` and replace whenever a strictly higher progress shows up. -/
def bestRead (first : ReadSession) (reads : List ReadSession) : ReadSession :=
  reads.foldl (fun b r => if sessionProgress b < sessionProgress r then r else b) first

/-- `HardcoverClient.cleanupDuplicateReads`, abstracted over the outcome of
each `deleteRead` call (`deleteOk id` is whether deleting the read with that
id succeeds).  At most one read is kept; every other read is deleted and the
successful deletions are counted. -/
def cleanupDuplicateReads (reads : List ReadSession) (deleteOk : Int → Bool) :
    CleanupResult :=
  if reads.length ≤ 1 then ⟨0, none⟩
  else
    match reads with
    | [] => ⟨0, none⟩
    | r0 :: _ =>
      let best := bestRead r0 reads
      let deleted :=
        ((reads.filter fun r => r.id ≠ best.id).filter fun r => deleteOk r.id).length
      ⟨deleted, some best.id⟩

/-! ## `HardcoverClient.updateProgress` and the push handler of
`useHardcoverSync.pushProgressInternal` -/

/-- The `user_book_read` rows returned by the update/create mutations;
`progress_pages` can be null on a finished read. -/
structure UserBookRead where
  id : Int
  progress_pages : Option Int
  started_at : String
  edition_id : Int
deriving DecidableEq, Repr

/-- The `{ error?, user_book_read? }` payload of `update_user_book_read` /
`insert_user_book_read`. -/
structure MutationPayload where
  error : Option String
  user_book_read : Option UserBookRead
deriving DecidableEq, Repr

/-- One `graphqlRequest` outcome as seen by `updateProgress`: either the
request threw (circuit open, auth, network, GraphQL error...) or it returned,
with the mutation payload possibly missing from the data. -/
inductive GqlCallResult where
  | thrown (msg : String)
  | returned (payload : Option MutationPayload)
deriving DecidableEq, Repr

/-- The result object of `updateProgress`. -/
structure UpdateResult where
  success : Bool
  readId : Option Int
  editionId : Option Int
  startedAt : Option String
deriving DecidableEq, Repr

/-- The `{ success: false }` object. -/
def updateFailed : UpdateResult := ⟨false, none, none, none⟩

/-- JavaScript truthiness of an optional string (`undefined` and `""` are
falsy). -/
def strTruthy : Option String → Bool
  | none => false
  | some s => s ≠ ""

/-- JavaScript truthiness of an optional number (`undefined` and `0` are
falsy). -/
def numTruthy : Option Int → Bool
  | none => false
  | some v => v ≠ 0

/-- `payload?.error`, as a truthy test plus the message. -/
def payloadError (p : Option MutationPayload) : Option String :=
  p.bind (·.error)

/-- `payload?.user_book_read`. -/
def payloadRead (p : Option MutationPayload) : Option UserBookRead :=
  p.bind (·.user_book_read)

/-- The create branch of `updateProgress` (no truthy `readId`), up to but not
including the surrounding `catch`: a `Couldn\x27t find UserBook` mutation
error throws `HARDCOVER_INVALID_USER_BOOK`; any other truthy error yields
`{ success: false }`; a missing `user_book_read` yields `{ success: false }`;
otherwise the created read is returned. -/
def createBranchBody (cr : GqlCallResult) : Except String UpdateResult :=
  match cr with
  | .thrown m => .error m
  | .returned p =>
    if strTruthy (payloadError p) then
      if strIncludes ((payloadError p).getD "") "Couldn\x27t find UserBook" then
        .error "HARDCOVER_INVALID_USER_BOOK"
      else .ok updateFailed
    else
      match payloadRead p with
      | none => .ok updateFailed
      | some r => .ok ⟨true, some r.id, some r.edition_id, some r.started_at⟩

/-- The `catch` of `updateProgress`: every exception becomes
`{ success: false }`. -/
def catchWrap : Except String UpdateResult → UpdateResult
  | .error _ => updateFailed
  | .ok r => r

/-- `updateProgress` body plus call count, abstracted over the sequence of
network outcomes (`env 0` answers the first mutation, `env 1` the second).
With a truthy `readId` the update mutation runs first; a truthy mutation
error or a null `progress_pages` falls back to one full recursive call with
no `readId`, which is the create branch wrapped in its own `catch`.  Without
a truthy `readId` only the create branch runs. -/
def updateProgressRun (readId : Option Int) (env : Nat → GqlCallResult) :
    Except String UpdateResult × Nat :=
  if numTruthy readId then
    match env 0 with
    | .thrown m => (.error m, 1)
    | .returned p =>
      if strTruthy (payloadError p) then
        (.ok (catchWrap (createBranchBody (env 1))), 2)
      else
        match payloadRead p with
        | none => (.ok updateFailed, 1)
        | some r =>
          match r.progress_pages with
          | none => (.ok (catchWrap (createBranchBody (env 1))), 2)
          | some _ => (.ok ⟨true, some r.id, some r.edition_id, some r.started_at⟩, 1)
  else
    (createBranchBody (env 0), 1)

/-- The value `updateProgress` hands back to its caller: its body guarded by
its own `catch`. -/
def updateProgress (readId : Option Int) (env : Nat → GqlCallResult) :
    UpdateResult :=
  catchWrap (updateProgressRun readId env).1

/-- How many mutation requests one `updateProgress` call issues. -/
def updateProgressCalls (readId : Option Int) (env : Nat → GqlCallResult) : Nat :=
  (updateProgressRun readId env).2

/-- How `pushProgressInternal` reacts to the `updateProgress` call: the
result branch on `result.success`, or — only if the call throws — one of the
catch branches.  Only `caughtInvalidUserBook` clears the stored linkage ids
and requests a re-match. -/
inductive PushReaction where
  | resultSuccess
  | resultFailure
  | caughtCircuitOpen
  | caughtInvalidUserBook
  | caughtOther
deriving DecidableEq, Repr

/-- The `try`/`catch` dispatch around the `updateProgress` call in
`pushProgressInternal`. -/
def pushHandle (call : Except String UpdateResult) : PushReaction :=
  match call with
  | .ok r => if r.success then .resultSuccess else .resultFailure
  | .error m =>
    if strIncludes m "HARDCOVER_CIRCUIT_OPEN" then .caughtCircuitOpen
    else if strIncludes m "HARDCOVER_INVALID_USER_BOOK" then .caughtInvalidUserBook
    else .caughtOther

/-- Whether a reaction clears the linkage (`hardcoverId`, `hardcoverReadId`,
`hardcoverEditionId`, `hardcoverStartedAt`) and sets `needsMatching`. -/
def clearsLinkage : PushReaction → Bool
  | .caughtInvalidUserBook => true
  | _ => false

/-- A breaker in `OPEN` state whose timeout has elapsed at time 60000. -/
def cbOpenElapsed : CircuitBreakerState :=
  { state := .OPEN
    failureCount := 3
    lastFailureTime := 0
    halfOpenAttempts := 0
    hasNotifiedDisconnect := false }

/-- An environment whose mutations all answer with the invalid-user-book
error message. -/
def invalidUserBookEnv : Nat → GqlCallResult :=
  fun _ => .returned (some ⟨some "Couldn\x27t find UserBook", none⟩)

/-- An environment in which every request throws a network error. -/
def networkDownEnv : Nat → GqlCallResult :=
  fun _ => .thrown "HARDCOVER_NETWORK_ERROR"

/-- An environment whose first mutation reports a truthy error and whose
second succeeds with a fresh read. -/
def fallbackEnv : Nat → GqlCallResult :=
  fun n =>
    if n = 0 then .returned (some ⟨some "boom", none⟩)
    else .returned (some ⟨none, some ⟨9, some 12, "2024-01-01", 7⟩⟩)

/-! ## Lemmas -/

/-- When the remote scale is strictly finer than the local one, the rounding
round trip of the Progress Translator is exact. -/
theorem jround_roundtrip_exact (p L R : Nat) (hL : 1 ≤ L) (hLR : L < R) :
    jround (jround (p * R) L * L) R = p := by
  unfold jround
  have h2L : 0 < 2 * L := by omega
  have hdm := Nat.div_add_mod (2 * (p * R) + L) (2 * L)
  have hmlt := Nat.mod_lt (2 * (p * R) + L) h2L
  set q := (2 * (p * R) + L) / (2 * L) with hq
  set r := (2 * (p * R) + L) % (2 * L) with hr
  have hmc1 : 2 * L * q = 2 * (q * L) := by ring
  rw [hmc1] at hdm
  have hpr : 2 * (p * R) = p * (2 * R) := by ring
  have hsub : 2 * (q * L) + R = p * (2 * R) + (L + R - r) := by omega
  rw [hsub, Nat.add_comm (p * (2 * R)) (L + R - r),
    Nat.add_mul_div_right _ _ (show 0 < 2 * R by omega),
    Nat.div_eq_of_lt (show L + R - r < 2 * R by omega), Nat.zero_add]

/-! ## Claim theorems -/

/-- Claim C5, counterexample: with localTotalPages = 5 and remoteTotalPages
= 1 the local page 2 maps to remote page 0 and back to local page 0, which
is 2 pages away from the original — the round trip is not within plus or
minus 1 as the claim states. -/
theorem hardcover_c5_roundtrip_counterexample :
    mapLocalToRemote 2 5 1 = 0 ∧ mapRemoteToLocal 0 1 5 = 0 ∧
    ¬(((mapRemoteToLocal (mapLocalToRemote 2 5 1) 1 5 : Int) - (2 : Int)).natAbs ≤ 1) := by
  decide

/-- Claim C5 (amended): for every local page `1 ≤ p ≤ localTotalPages` and
known `remoteTotalPages ≥ 1` that is at least the local total, mapping `p`
to the remote scale and back (totals unchanged) lands within plus or minus
1 of `p` (in fact exactly on `p`); when the remote total is smaller than the
local total the code can be off by more, as the counterexample shows. -/
theorem hardcover_c5_roundtrip_amended (p L R : Nat)
    (hp : 1 ≤ p) (hpL : p ≤ L) (hR : 1 ≤ R) (hLR : L ≤ R) :
    ((mapRemoteToLocal (mapLocalToRemote p L R) R L : Int) - (p : Int)).natAbs ≤ 1 := by
  rcases eq_or_lt_of_le hLR with heq | hlt
  · simp [mapLocalToRemote, mapRemoteToLocal, heq]
  · have hL : 1 ≤ L := le_trans hp hpL
    have hcond : R ≠ 0 ∧ R ≠ L := ⟨by omega, by omega⟩
    rw [mapLocalToRemote, if_pos hcond, mapRemoteToLocal, if_pos hcond,
      jround_roundtrip_exact p L R hL hlt]
    simp

/-- Witness for the amended claim C5 at `p = 3`, `L = 4`, `R = 8`. -/
theorem hardcover_c5_witness :
    1 ≤ 3 ∧ 3 ≤ 4 ∧ 1 ≤ 8 ∧ 4 ≤ 8 ∧
    ((mapRemoteToLocal (mapLocalToRemote 3 4 8) 8 4 : Int) - (3 : Int)).natAbs ≤ 1 :=
  ⟨by decide, by decide, by decide, by decide,
    hardcover_c5_roundtrip_amended 3 4 8 (by decide) (by decide) (by decide) (by decide)⟩

/-- Claim C3 (code bug): `recordFailure` increments `failureCount` and
updates `lastFailureTime` before its auth-failure early return, so an
authentication failure does count toward the 3-failure threshold: after one
auth failure, only two further non-auth failures open the gate, while
without the auth failure two non-auth failures leave the gate closed.  (The
gate state itself is indeed not changed by the auth failure, and the same
increment is reached end to end through `graphqlRequest` on a GraphQL
403/Forbidden response.) -/
theorem hardcover_c3_auth_failure_still_counted :
    (recordFailure initialBreaker "HARDCOVER_AUTH_FAILED" 5).failureCount = 1 ∧
    (recordFailure initialBreaker "HARDCOVER_AUTH_FAILED" 5).lastFailureTime = 5 ∧
    (recordFailure initialBreaker "HARDCOVER_AUTH_FAILED" 5).state = CircuitState.CLOSED ∧
    (graphqlRequest initialBreaker 5 true (.gqlErrors "403: Forbidden")).1.failureCount = 1 ∧
    (failSeq initialBreaker
      [("HARDCOVER_AUTH_FAILED", 5), ("HARDCOVER_SERVER_ERROR", 6),
        ("HARDCOVER_NETWORK_ERROR", 7)]).state = CircuitState.OPEN ∧
    (failSeq initialBreaker
      [("HARDCOVER_SERVER_ERROR", 6), ("HARDCOVER_NETWORK_ERROR", 7)]).state =
      CircuitState.CLOSED := by
  decide

/-- Claim C9 (code bug): when the create mutation reports
`Couldn\x27t find UserBook`, the `HARDCOVER_INVALID_USER_BOOK` exception
thrown inside `updateProgress` is swallowed by that same function's own
`catch`, which returns `{ success: false }`; the push handler therefore takes
its plain failure branch and never reaches the catch branch that clears the
linkage and requests a re-match (which it would take if the error actually
propagated, last conjunct). -/
theorem hardcover_c9_invalid_link_not_cleared :
    (updateProgressRun none invalidUserBookEnv).1 =
      Except.error "HARDCOVER_INVALID_USER_BOOK" ∧
    updateProgress none invalidUserBookEnv = updateFailed ∧
    pushHandle (Except.ok (updateProgress none invalidUserBookEnv)) =
      PushReaction.resultFailure ∧
    clearsLinkage (pushHandle (Except.ok (updateProgress none invalidUserBookEnv))) =
      false ∧
    pushHandle (Except.error "HARDCOVER_INVALID_USER_BOOK") =
      PushReaction.caughtInvalidUserBook := by
  refine ⟨rfl, rfl, rfl, rfl, rfl⟩

/-- Claim C10: `updateProgress` issues at most two mutation requests, the
create branch (no truthy `readId`) issues exactly one — so the
update-failure fallback happens at most once and the create branch never
recurses — and every exception raised by its body is caught and turned into
the `{ success: false }` result, for every input and network outcome. -/
theorem hardcover_c10_update_progress_total (readId : Option Int)
    (env : Nat → GqlCallResult) :
    updateProgressCalls readId env ≤ 2 ∧
    (numTruthy readId = false → updateProgressCalls readId env = 1) ∧
    (∀ e, (updateProgressRun readId env).1 = Except.error e →
      updateProgress readId env = updateFailed) := by
  by_cases ht : numTruthy readId
  · cases henv : env 0 with
    | thrown m =>
      simp [updateProgressCalls, updateProgress, updateProgressRun, ht, henv, catchWrap]
    | returned p =>
      by_cases he : strTruthy (payloadError p)
      · simp [updateProgressCalls, updateProgress, updateProgressRun, ht, henv, he]
      · cases hrd : payloadRead p with
        | none =>
          simp [updateProgressCalls, updateProgress, updateProgressRun, ht, henv, he, hrd]
        | some r =>
          cases hpp : r.progress_pages with
          | none =>
            simp [updateProgressCalls, updateProgress, updateProgressRun, ht, henv, he,
              hrd, hpp]
          | some v =>
            simp [updateProgressCalls, updateProgress, updateProgressRun, ht, henv, he,
              hrd, hpp]
  · refine ⟨?_, fun _ => ?_, fun e h => ?_⟩
    · simp [updateProgressCalls, updateProgressRun, ht]
    · simp [updateProgressCalls, updateProgressRun, ht]
    · simp only [updateProgress]
      rw [h]
      rfl

/-- Witness for claim C10: a concrete network-down run and a concrete
create-branch run. -/
theorem hardcover_c10_witness :
    updateProgressCalls (some 1) networkDownEnv ≤ 2 ∧
    updateProgressCalls none networkDownEnv = 1 ∧
    updateProgress (some 1) networkDownEnv = updateFailed :=
  ⟨(hardcover_c10_update_progress_total (some 1) networkDownEnv).1,
   (hardcover_c10_update_progress_total none networkDownEnv).2.1 rfl,
   (hardcover_c10_update_progress_total (some 1) networkDownEnv).2.2
     "HARDCOVER_NETWORK_ERROR" rfl⟩

/-- Claim C6: with `diff = |remotePercentage - localPercentage|`, the pull
policy dispatch raises a conflict under `prompt` iff `diff > 0.05`; applies
remote under `silent` iff the remote timestamp is strictly newer; always
applies remote under `receive`; never reaches the remote fetch under `send`;
and never raises a conflict under `send` or `receive`. -/
theorem hardcover_c6_conflict_resolver (r l : ℚ) (rts lts : Int) :
    (pullDecision HcStrategy.prompt r l rts lts = PullAction.conflict ↔
      (5 : ℚ) / 100 < |r - l|) ∧
    (pullDecision HcStrategy.silent r l rts lts = PullAction.applyRemote ↔
      lts < rts) ∧
    pullDecision HcStrategy.receive r l rts lts = PullAction.applyRemote ∧
    pullDecision HcStrategy.send r l rts lts = PullAction.noRemoteFetch ∧
    pullDecision HcStrategy.send r l rts lts ≠ PullAction.conflict ∧
    pullDecision HcStrategy.receive r l rts lts ≠ PullAction.conflict := by
  refine ⟨?_, ?_, ?_, ?_, ?_, ?_⟩
  · by_cases hd : (5 : ℚ) / 100 < |r - l| <;> simp [pullDecision, hd]
  · by_cases hn : lts < rts <;> simp [pullDecision, hn]
  · simp [pullDecision]
  · simp [pullDecision]
  · simp [pullDecision]
  · simp [pullDecision]

/-- The selection loop of `cleanupDuplicateReads` returns an element of
`b :: l` whose progress dominates `b` and every element of `l`. -/
theorem bestRead_spec (l : List ReadSession) : ∀ b : ReadSession,
    bestRead b l ∈ b :: l ∧
    sessionProgress b ≤ sessionProgress (bestRead b l) ∧
    ∀ r ∈ l, sessionProgress r ≤ sessionProgress (bestRead b l) := by
  induction l with
  | nil => intro b; simp [bestRead]
  | cons x xs ih =>
    intro b
    have hstep : bestRead b (x :: xs) =
        bestRead (if sessionProgress b < sessionProgress x then x else b) xs := by
      simp [bestRead, List.foldl_cons]
    obtain ⟨hmem, hble, hall⟩ :=
      ih (if sessionProgress b < sessionProgress x then x else b)
    have hble2 : sessionProgress b ≤
        sessionProgress (if sessionProgress b < sessionProgress x then x else b) := by
      by_cases hbx : sessionProgress b < sessionProgress x <;> simp [hbx]
      omega
    have hxle : sessionProgress x ≤
        sessionProgress (if sessionProgress b < sessionProgress x then x else b) := by
      by_cases hbx : sessionProgress b < sessionProgress x <;> simp [hbx]
      omega
    refine ⟨?_, ?_, ?_⟩
    · rw [hstep]
      by_cases hbx : sessionProgress b < sessionProgress x
      · rw [if_pos hbx] at hmem ⊢
        exact List.mem_cons_of_mem b hmem
      · rw [if_neg hbx] at hmem ⊢
        rcases List.mem_cons.mp hmem with h | h
        · simp [h]
        · simp [List.mem_cons, h]
    · rw [hstep]
      exact le_trans hble2 hble
    · rw [hstep]
      intro s hs
      rcases List.mem_cons.mp hs with h | h
      · subst h
        exact le_trans hxle hble
      · exact hall s h

/-- Claim C8: duplicate-session cleanup with all deletions succeeding keeps
exactly the read of maximal progress (the first such, by strict comparison),
deletes and counts every other read, and on the concrete session list
`[(1,40), (2,120), (3,80)]` keeps id 2, deletes ids 1 and 3 and returns
`deleted = 2, kept = 2`. -/
theorem hardcover_c8_cleanup :
    (∀ (r0 : ReadSession) (rest : List ReadSession),
      2 ≤ (r0 :: rest).length →
      cleanupDuplicateReads (r0 :: rest) (fun _ => true) =
        ⟨((r0 :: rest).filter fun r => r.id ≠ (bestRead r0 (r0 :: rest)).id).length,
          some (bestRead r0 (r0 :: rest)).id⟩ ∧
      bestRead r0 (r0 :: rest) ∈ r0 :: rest ∧
      ∀ r ∈ r0 :: rest,
        sessionProgress r ≤ sessionProgress (bestRead r0 (r0 :: rest))) ∧
    cleanupDuplicateReads
        [⟨1, some 40⟩, ⟨2, some 120⟩, ⟨3, some 80⟩] (fun _ => true) =
      ⟨2, some 2⟩ ∧
    (([⟨1, some 40⟩, ⟨2, some 120⟩, ⟨3, some 80⟩] : List ReadSession).filter
        fun r => r.id ≠ (2 : Int)) = [⟨1, some 40⟩, ⟨3, some 80⟩] := by
  refine ⟨?_, by decide, by decide⟩
  intro r0 rest hlen
  obtain ⟨hmem, _, hall⟩ := bestRead_spec (r0 :: rest) r0
  have hmem2 : bestRead r0 (r0 :: rest) ∈ r0 :: rest := by
    rcases List.mem_cons.mp hmem with h | h
    · simp [h]
    · exact h
  refine ⟨?_, hmem2, hall⟩
  have hne : ¬((r0 :: rest).length ≤ 1) := by
    simp only [List.length_cons] at hlen ⊢
    omega
  simp only [cleanupDuplicateReads, if_neg hne]
  simp

/-- Witness for claim C8 at the concrete session list of the claim. -/
theorem hardcover_c8_witness :
    cleanupDuplicateReads [⟨1, some 40⟩, ⟨2, some 120⟩, ⟨3, some 80⟩] (fun _ => true) =
      ⟨(([⟨1, some 40⟩, ⟨2, some 120⟩, ⟨3, some 80⟩] : List ReadSession).filter
          fun r => r.id ≠ (bestRead ⟨1, some 40⟩
            [⟨1, some 40⟩, ⟨2, some 120⟩, ⟨3, some 80⟩]).id).length,
        some (bestRead ⟨1, some 40⟩
          [⟨1, some 40⟩, ⟨2, some 120⟩, ⟨3, some 80⟩]).id⟩ ∧
    bestRead ⟨1, some 40⟩ [⟨1, some 40⟩, ⟨2, some 120⟩, ⟨3, some 80⟩] ∈
      [⟨1, some 40⟩, ⟨2, some 120⟩, ⟨3, some 80⟩] ∧
    ∀ r ∈ ([⟨1, some 40⟩, ⟨2, some 120⟩, ⟨3, some 80⟩] : List ReadSession),
      sessionProgress r ≤
        sessionProgress (bestRead ⟨1, some 40⟩
          [⟨1, some 40⟩, ⟨2, some 120⟩, ⟨3, some 80⟩]) :=
  hardcover_c8_cleanup.1 ⟨1, some 40⟩ [⟨2, some 120⟩, ⟨3, some 80⟩] (by decide)

/-- The selection loop of the Book Matcher returns an element of its input
whose score dominates the accumulator and every scored candidate. -/
theorem pickStep_go (l : List (HBook × ℚ)) : ∀ b : HBook × ℚ,
    ∃ c, l.foldl pickStep (some b) = some c ∧ c ∈ b :: l ∧ b.2 ≤ c.2 ∧
      ∀ p ∈ l, p.2 ≤ c.2 := by
  induction l with
  | nil => intro b; exact ⟨b, rfl, by simp, le_refl _, by simp⟩
  | cons x xs ih =>
    intro b
    have hstep : (x :: xs).foldl pickStep (some b) =
        xs.foldl pickStep (some (if b.2 < x.2 then x else b)) := by
      by_cases hbx : b.2 < x.2 <;> simp [List.foldl_cons, pickStep, hbx]
    obtain ⟨c, hc, hmem, hble, hall⟩ := ih (if b.2 < x.2 then x else b)
    refine ⟨c, by rw [hstep]; exact hc, ?_, ?_, ?_⟩
    · rcases List.mem_cons.mp hmem with h | h
      · by_cases hbx : b.2 < x.2
        · rw [if_pos hbx] at h
          simp [h]
        · rw [if_neg hbx] at h
          simp [h]
      · simp [List.mem_cons, h]
    · refine le_trans ?_ hble
      by_cases hbx : b.2 < x.2
      · rw [if_pos hbx]
        exact le_of_lt hbx
      · rw [if_neg hbx]
    · intro p hp
      rcases List.mem_cons.mp hp with h | h
      · rw [h]
        refine le_trans ?_ hble
        by_cases hbx : b.2 < x.2
        · rw [if_pos hbx]
        · rw [if_neg hbx]
          exact le_of_not_lt hbx
      · exact hall p h

/-- `pickBest` of a nonempty scored list returns a maximal-score element. -/
theorem pickBest_spec (x : HBook × ℚ) (xs : List (HBook × ℚ)) :
    ∃ c, pickBest (x :: xs) = some c ∧ c ∈ x :: xs ∧ ∀ p ∈ x :: xs, p.2 ≤ c.2 := by
  obtain ⟨c, hc, hmem, hxle, hall⟩ := pickStep_go xs x
  refine ⟨c, ?_, hmem, ?_⟩
  · simpa [pickBest, List.foldl_cons, pickStep] using hc
  · intro p hp
    rcases List.mem_cons.mp hp with h | h
    · subst h
      exact hxle
    · exact hall p h

/-- Claim C7: every title/author candidate is scored as
`70 * titleSimilarity + 30 * authorSimilarity` with similarities from the
Levenshtein distance normalized by the longer string; a returned match is a
candidate of maximal score and its score strictly exceeds 60; when no
candidate scores above 60 the matcher reports no match; and the exact
candidate `"Dune"` by `"Frank Herbert"` scores 100 and is matched. -/
theorem hardcover_c7_matcher :
    (∀ (t a : String) (hb : HBook),
      candidateScore t a hb =
        stringSimilarity (strLower t) (strLower hb.title) * 70 +
          stringSimilarity (strLower a)
            (strLower (String.intercalate " " hb.authors)) * 30) ∧
    (∀ (t a : String) (results : List HBook) (hb : HBook),
      matchBookScoring t a results = some hb →
      hb ∈ results ∧ 60 < candidateScore t a hb ∧
        ∀ c ∈ results, candidateScore t a c ≤ candidateScore t a hb) ∧
    (∀ (t a : String) (results : List HBook),
      (∀ c ∈ results, candidateScore t a c ≤ 60) →
      matchBookScoring t a results = none) ∧
    candidateScore "Dune" "Frank Herbert" ⟨"Dune", ["Frank Herbert"]⟩ = 100 ∧
    matchBookScoring "Dune" "Frank Herbert" [⟨"Dune", ["Frank Herbert"]⟩] =
      some ⟨"Dune", ["Frank Herbert"]⟩ := by
  have hscore : candidateScore "Dune" "Frank Herbert" ⟨"Dune", ["Frank Herbert"]⟩ = 100 := by
    have hsim1 : stringSimilarity (strLower "Dune")
        (strLower (HBook.mk "Dune" ["Frank Herbert"]).title) = 1 := by
      have hlen : (longerOf (strLower "Dune") (strLower "Dune")).length = 4 := by decide
      have hlev : levenshteinDistance (longerOf (strLower "Dune") (strLower "Dune")).data
          (shorterOf (strLower "Dune") (strLower "Dune")).data = 0 := by decide
      show stringSimilarity (strLower "Dune") (strLower "Dune") = 1
      rw [stringSimilarity, hlen, hlev]
      norm_num
    have hsim2 : stringSimilarity (strLower "Frank Herbert")
        (strLower (String.intercalate " " (HBook.mk "Dune" ["Frank Herbert"]).authors)) = 1 := by
      have hint : String.intercalate " " (HBook.mk "Dune" ["Frank Herbert"]).authors =
          "Frank Herbert" := by decide
      rw [hint]
      have hlen : (longerOf (strLower "Frank Herbert") (strLower "Frank Herbert")).length = 13 := by
        decide
      have hlev : levenshteinDistance
          (longerOf (strLower "Frank Herbert") (strLower "Frank Herbert")).data
          (shorterOf (strLower "Frank Herbert") (strLower "Frank Herbert")).data = 0 := by
        decide
      rw [stringSimilarity, hlen, hlev]
      norm_num
    rw [candidateScore, hsim1, hsim2]
    norm_num
  refine ⟨fun t a hb => rfl, ?_, ?_, hscore, ?_⟩
  · intro t a results hb h
    cases results with
    | nil => simp [matchBookScoring, pickBest] at h
    | cons x xs =>
      obtain ⟨c, hc, hmem, hall⟩ :=
        pickBest_spec (x, candidateScore t a x)
          (xs.map fun hb2 => (hb2, candidateScore t a hb2))
      obtain ⟨cb, cs⟩ := c
      rw [matchBookScoring, List.map_cons, hc] at h
      have h2 : (if (60 : ℚ) < cs then some cb else none) = some hb := h
      have hmem2 : (cb, cs) ∈ (x :: xs).map fun hb2 => (hb2, candidateScore t a hb2) := by
        rw [List.map_cons]
        exact hmem
      obtain ⟨orig, horig, heq⟩ := List.mem_map.mp hmem2
      have hc1 : cb = orig := congrArg Prod.fst heq.symm
      have hc2 : cs = candidateScore t a orig := congrArg Prod.snd heq.symm
      by_cases hsc : (60 : ℚ) < cs
      · rw [if_pos hsc] at h2
        have hb1 : cb = hb := Option.some.inj h2
        subst hb1
        subst hc1
        refine ⟨horig, by rw [← hc2]; exact hsc, ?_⟩
        intro cand hcand
        have hcmem : (cand, candidateScore t a cand) ∈
            (x, candidateScore t a x) :: (xs.map fun hb2 => (hb2, candidateScore t a hb2)) := by
          rcases List.mem_cons.mp hcand with hh | hh
          · rw [hh]
            exact List.mem_cons_self _ _
          · exact List.mem_cons_of_mem _ (List.mem_map.mpr ⟨cand, hh, rfl⟩)
        have := hall _ hcmem
        rw [← hc2]
        exact this
      · rw [if_neg hsc] at h2
        cases h2
  · intro t a results hlow
    cases results with
    | nil => rfl
    | cons x xs =>
      obtain ⟨c, hc, hmem, hall⟩ :=
        pickBest_spec (x, candidateScore t a x)
          (xs.map fun hb2 => (hb2, candidateScore t a hb2))
      obtain ⟨cb, cs⟩ := c
      have hmem2 : (cb, cs) ∈ (x :: xs).map fun hb2 => (hb2, candidateScore t a hb2) := by
        rw [List.map_cons]
        exact hmem
      obtain ⟨orig, horig, heq⟩ := List.mem_map.mp hmem2
      have hc2 : cs = candidateScore t a orig := congrArg Prod.snd heq.symm
      show (match pickBest ((x :: xs).map fun hb2 => (hb2, candidateScore t a hb2)) with
        | none => none
        | some (hb, score) => if 60 < score then some hb else none) = none
      rw [List.map_cons, hc]
      show (if (60 : ℚ) < cs then some cb else none) = none
      rw [if_neg (by rw [hc2]; exact not_lt.mpr (hlow orig horig))]
  · have hpick : matchBookScoring "Dune" "Frank Herbert" [⟨"Dune", ["Frank Herbert"]⟩] =
        if (60 : ℚ) < candidateScore "Dune" "Frank Herbert" ⟨"Dune", ["Frank Herbert"]⟩ then
          some ⟨"Dune", ["Frank Herbert"]⟩
        else none := rfl
    rw [hpick, if_pos (by rw [hscore]; norm_num)]

/-- Witness for claim C7: the accepted `"Dune"` candidate is a maximal-score
match with score above 60. -/
theorem hardcover_c7_witness :
    (⟨"Dune", ["Frank Herbert"]⟩ : HBook) ∈ [(⟨"Dune", ["Frank Herbert"]⟩ : HBook)] ∧
    60 < candidateScore "Dune" "Frank Herbert" ⟨"Dune", ["Frank Herbert"]⟩ ∧
    ∀ c ∈ [(⟨"Dune", ["Frank Herbert"]⟩ : HBook)],
      candidateScore "Dune" "Frank Herbert" c ≤
        candidateScore "Dune" "Frank Herbert" ⟨"Dune", ["Frank Herbert"]⟩ :=
  hardcover_c7_matcher.2.1 "Dune" "Frank Herbert" [⟨"Dune", ["Frank Herbert"]⟩]
    ⟨"Dune", ["Frank Herbert"]⟩ hardcover_c7_matcher.2.2.2.2

/-- One non-auth `recordFailure` from a non-`HALF_OPEN` state: the counter
goes up by exactly one, the gate never lands in `HALF_OPEN`, and reaching
the threshold opens it. -/
theorem recordFailure_nonauth (cb : CircuitBreakerState) (e : String) (t : Int)
    (hna : strIncludes e "AUTH_FAILED" = false)
    (hho : cb.state ≠ CircuitState.HALF_OPEN) :
    (recordFailure cb e t).state ≠ CircuitState.HALF_OPEN ∧
    (recordFailure cb e t).failureCount = cb.failureCount + 1 ∧
    (CIRCUIT_BREAKER_THRESHOLD ≤ cb.failureCount + 1 →
      (recordFailure cb e t).state = CircuitState.OPEN) := by
  obtain ⟨st, fc, lf, ha, hn⟩ := cb
  cases st with
  | HALF_OPEN => exact absurd rfl hho
  | CLOSED =>
    by_cases h3 : CIRCUIT_BREAKER_THRESHOLD ≤ fc + 1 <;>
      simp [recordFailure, hna, h3]
  | OPEN =>
    by_cases h3 : CIRCUIT_BREAKER_THRESHOLD ≤ fc + 1 <;>
      simp [recordFailure, hna, h3]

/-- A run of non-auth recorded failures from a non-`HALF_OPEN` state: the
counter adds up, `HALF_OPEN` is never entered, and a nonempty run whose
total reaches the threshold ends with the gate `OPEN`. -/
theorem failSeq_nonauth (evs : List (String × Int)) : ∀ cb : CircuitBreakerState,
    cb.state ≠ CircuitState.HALF_OPEN →
    (∀ e ∈ evs, strIncludes e.1 "AUTH_FAILED" = false) →
    (failSeq cb evs).state ≠ CircuitState.HALF_OPEN ∧
    (failSeq cb evs).failureCount = cb.failureCount + evs.length ∧
    (1 ≤ evs.length →
      CIRCUIT_BREAKER_THRESHOLD ≤ cb.failureCount + evs.length →
      (failSeq cb evs).state = CircuitState.OPEN) := by
  induction evs with
  | nil =>
    intro cb hho _
    exact ⟨hho, by simp [failSeq], by simp⟩
  | cons ev rest ih =>
    intro cb hho hna
    have hna0 : strIncludes ev.1 "AUTH_FAILED" = false :=
      hna ev (List.mem_cons_self _ _)
    have hnar : ∀ e ∈ rest, strIncludes e.1 "AUTH_FAILED" = false :=
      fun e he => hna e (List.mem_cons_of_mem _ he)
    obtain ⟨s1, s2, s3⟩ := recordFailure_nonauth cb ev.1 ev.2 hna0 hho
    have hfold : failSeq cb (ev :: rest) = failSeq (recordFailure cb ev.1 ev.2) rest := by
      simp [failSeq, List.foldl_cons]
    obtain ⟨t1, t2, t3⟩ := ih (recordFailure cb ev.1 ev.2) s1 hnar
    rw [hfold]
    refine ⟨t1, by rw [t2, s2]; simp [List.length_cons]; omega, ?_⟩
    intro _ hth
    simp only [List.length_cons] at hth
    rcases rest with _ | ⟨r2, rest2⟩
    · have : failSeq (recordFailure cb ev.1 ev.2) [] = recordFailure cb ev.1 ev.2 := by
        simp [failSeq]
      rw [this]
      exact s3 (by simp at hth; omega)
    · refine t3 (by simp) ?_
      rw [s2]
      simp only [List.length_cons] at *
      omega

/-- While `OPEN` with the timeout not elapsed, `canMakeRequest` rejects and
leaves the breaker untouched. -/
theorem canMakeRequest_open_rejects (cb : CircuitBreakerState) (now : Int)
    (h : cb.state = CircuitState.OPEN)
    (ht : now - cb.lastFailureTime < CIRCUIT_BREAKER_TIMEOUT) :
    canMakeRequest cb now =
      ⟨cb, false, some (circuitOpenWaitReason now cb.lastFailureTime)⟩ := by
  obtain ⟨st, fc, lf, ha, hn⟩ := cb
  simp only at h
  subst h
  unfold canMakeRequest
  simp only
  rw [if_neg (not_le.mpr ht)]

/-- While `OPEN` with the timeout not elapsed, `graphqlRequest` throws the
`HARDCOVER_CIRCUIT_OPEN`-tagged error without touching the network and
without changing the breaker. -/
theorem graphqlRequest_open_rejects (cb : CircuitBreakerState) (now : Int)
    (hasToken : Bool) (net : NetOutcome)
    (h : cb.state = CircuitState.OPEN)
    (ht : now - cb.lastFailureTime < CIRCUIT_BREAKER_TIMEOUT) :
    graphqlRequest cb now hasToken net =
      (cb,
        Except.error ("HARDCOVER_CIRCUIT_OPEN: " ++
          circuitOpenWaitReason now cb.lastFailureTime),
        false) := by
  unfold graphqlRequest
  rw [canMakeRequest_open_rejects cb now h ht]
  simp

/-- Every admission check of a sequence issued while `OPEN` with the timeout
not elapsed is rejected, and the breaker never changes. -/
theorem admitSeq_open (cb : CircuitBreakerState) (h : cb.state = CircuitState.OPEN) :
    ∀ ts : List Int,
      (∀ t ∈ ts, t - cb.lastFailureTime < CIRCUIT_BREAKER_TIMEOUT) →
      admitSeq cb ts = ⟨cb, 0⟩ := by
  intro ts
  induction ts with
  | nil => intro _; rfl
  | cons t ts2 ih =>
    intro hall
    have hstep : admitSeq cb (t :: ts2) = admitSeq cb ts2 := by
      simp [admitSeq, List.foldl_cons,
        canMakeRequest_open_rejects cb t h (hall t (List.mem_cons_self _ _))]
    rw [hstep]
    exact ih fun u hu => hall u (List.mem_cons_of_mem _ hu)

/-- Claim C1: any run of at least 3 consecutive non-auth recorded failures
starting from `CLOSED` leaves the gate `OPEN`, and every request issued
while `OPEN` before the 60 s timeout has elapsed since the last failure is
rejected with the distinguished `HARDCOVER_CIRCUIT_OPEN` error, without any
network call and without changing the gate state (both for a single
`graphqlRequest` and for any sequence of admission checks). -/
theorem hardcover_c1_gate (cb : CircuitBreakerState)
    (hclosed : cb.state = CircuitState.CLOSED)
    (evs : List (String × Int)) (hlen : 3 ≤ evs.length)
    (hna : ∀ e ∈ evs, strIncludes e.1 "AUTH_FAILED" = false) :
    (failSeq cb evs).state = CircuitState.OPEN ∧
    (∀ (now : Int) (hasToken : Bool) (net : NetOutcome),
      now - (failSeq cb evs).lastFailureTime < CIRCUIT_BREAKER_TIMEOUT →
      graphqlRequest (failSeq cb evs) now hasToken net =
        (failSeq cb evs,
          Except.error ("HARDCOVER_CIRCUIT_OPEN: " ++
            circuitOpenWaitReason now (failSeq cb evs).lastFailureTime),
          false)) ∧
    (∀ ts : List Int,
      (∀ t ∈ ts, t - (failSeq cb evs).lastFailureTime < CIRCUIT_BREAKER_TIMEOUT) →
      admitSeq (failSeq cb evs) ts = ⟨failSeq cb evs, 0⟩) := by
  have hth : CIRCUIT_BREAKER_THRESHOLD = 3 := rfl
  have hopen : (failSeq cb evs).state = CircuitState.OPEN := by
    obtain ⟨_, _, h3⟩ := failSeq_nonauth evs cb (by rw [hclosed]; simp) hna
    exact h3 (by omega) (by omega)
  exact ⟨hopen,
    fun now tok net hlt => graphqlRequest_open_rejects _ now tok net hopen hlt,
    fun ts hts => admitSeq_open _ hopen ts hts⟩

/-- Witness for claim C1 on a concrete three-failure run. -/
theorem hardcover_c1_witness :
    (failSeq initialBreaker
      [("HARDCOVER_SERVER_ERROR", 10), ("HARDCOVER_NETWORK_ERROR", 20),
        ("HARDCOVER_GRAPHQL_ERROR: boom", 30)]).state = CircuitState.OPEN ∧
    graphqlRequest
        (failSeq initialBreaker
          [("HARDCOVER_SERVER_ERROR", 10), ("HARDCOVER_NETWORK_ERROR", 20),
            ("HARDCOVER_GRAPHQL_ERROR: boom", 30)]) 1000 true NetOutcome.okData =
      (failSeq initialBreaker
          [("HARDCOVER_SERVER_ERROR", 10), ("HARDCOVER_NETWORK_ERROR", 20),
            ("HARDCOVER_GRAPHQL_ERROR: boom", 30)],
        Except.error ("HARDCOVER_CIRCUIT_OPEN: " ++
          circuitOpenWaitReason 1000
            (failSeq initialBreaker
              [("HARDCOVER_SERVER_ERROR", 10), ("HARDCOVER_NETWORK_ERROR", 20),
                ("HARDCOVER_GRAPHQL_ERROR: boom", 30)]).lastFailureTime),
        false) ∧
    admitSeq
        (failSeq initialBreaker
          [("HARDCOVER_SERVER_ERROR", 10), ("HARDCOVER_NETWORK_ERROR", 20),
            ("HARDCOVER_GRAPHQL_ERROR: boom", 30)]) [40, 50] =
      ⟨failSeq initialBreaker
        [("HARDCOVER_SERVER_ERROR", 10), ("HARDCOVER_NETWORK_ERROR", 20),
          ("HARDCOVER_GRAPHQL_ERROR: boom", 30)], 0⟩ := by
  have h := hardcover_c1_gate initialBreaker rfl
    [("HARDCOVER_SERVER_ERROR", 10), ("HARDCOVER_NETWORK_ERROR", 20),
      ("HARDCOVER_GRAPHQL_ERROR: boom", 30)] (by decide) (by decide)
  exact ⟨h.1, h.2.1 1000 true NetOutcome.okData (by decide),
    h.2.2 [40, 50] (by decide)⟩

/-- In `HALF_OPEN` with the probe allowance used up, `canMakeRequest`
rejects and leaves the breaker untouched. -/
theorem canMakeRequest_halfopen_saturated (cb : CircuitBreakerState) (now : Int)
    (h : cb.state = CircuitState.HALF_OPEN)
    (hatt : CIRCUIT_BREAKER_HALF_OPEN_REQUESTS ≤ cb.halfOpenAttempts) :
    canMakeRequest cb now =
      ⟨cb, false, some "Circuit breaker is testing service recovery. Please wait."⟩ := by
  obtain ⟨st, fc, lf, ha, hn⟩ := cb
  simp only at h hatt
  subst h
  unfold canMakeRequest
  simp only
  rw [if_neg (not_lt.mpr hatt)]

/-- Every admission check of a sequence issued in `HALF_OPEN` with the probe
allowance used up is rejected, and the breaker never changes. -/
theorem admitSeq_halfopen_saturated (cb : CircuitBreakerState)
    (h : cb.state = CircuitState.HALF_OPEN)
    (hatt : CIRCUIT_BREAKER_HALF_OPEN_REQUESTS ≤ cb.halfOpenAttempts) :
    ∀ ts : List Int, admitSeq cb ts = ⟨cb, 0⟩ := by
  intro ts
  induction ts with
  | nil => rfl
  | cons t ts2 ih =>
    have hstep : admitSeq cb (t :: ts2) = admitSeq cb ts2 := by
      simp [admitSeq, List.foldl_cons, canMakeRequest_halfopen_saturated cb t h hatt]
    rw [hstep]
    exact ih

/-- Claim C2, counterexample: from `OPEN` with the timeout elapsed, the
request that triggers the move to `HALF_OPEN` is admitted with the gate
already in `HALF_OPEN`, and a second request issued while the gate is still
`HALF_OPEN` is admitted too — two admissions, not exactly one.  Moreover a
probe that fails with an auth error leaves the gate in `HALF_OPEN` instead
of transitioning back to `OPEN`. -/
theorem hardcover_c2_counterexample :
    (canMakeRequest cbOpenElapsed 60000).allowed = true ∧
    (canMakeRequest cbOpenElapsed 60000).cb.state = CircuitState.HALF_OPEN ∧
    (canMakeRequest (canMakeRequest cbOpenElapsed 60000).cb 60001).allowed = true ∧
    (canMakeRequest (canMakeRequest cbOpenElapsed 60000).cb 60001).cb.state =
      CircuitState.HALF_OPEN ∧
    (recordFailure (canMakeRequest (canMakeRequest cbOpenElapsed 60000).cb 60001).cb
        "HARDCOVER_AUTH_FAILED" 60002).state = CircuitState.HALF_OPEN := by
  decide

/-- Claim C2 (amended): when the 60 s timeout has elapsed, the next
admission check moves the gate `OPEN → HALF_OPEN` and is itself admitted
without consuming the half-open allowance; exactly one further request is
then admitted while the gate remains `HALF_OPEN`, and all later checks are
rejected without state change.  If an admitted probe succeeds the gate
transitions to `CLOSED` with the failure count reset to 0; if it fails with
a non-auth error the gate transitions back to `OPEN` with the counter
pinned at the threshold 3 (an auth probe failure leaves the gate in
`HALF_OPEN`, per claim C3's exclusion). -/
theorem hardcover_c2_half_open_amended (cb : CircuitBreakerState)
    (now now2 t : Int) (ts : List Int) (e : String)
    (hopen : cb.state = CircuitState.OPEN)
    (helapsed : CIRCUIT_BREAKER_TIMEOUT ≤ now - cb.lastFailureTime)
    (hna : strIncludes e "AUTH_FAILED" = false) :
    (canMakeRequest cb now).allowed = true ∧
    (canMakeRequest cb now).cb.state = CircuitState.HALF_OPEN ∧
    (canMakeRequest cb now).cb.halfOpenAttempts = 0 ∧
    (canMakeRequest (canMakeRequest cb now).cb now2).allowed = true ∧
    (canMakeRequest (canMakeRequest cb now).cb now2).cb.state =
      CircuitState.HALF_OPEN ∧
    (canMakeRequest (canMakeRequest cb now).cb now2).cb.halfOpenAttempts = 1 ∧
    admitSeq (canMakeRequest (canMakeRequest cb now).cb now2).cb ts =
      ⟨(canMakeRequest (canMakeRequest cb now).cb now2).cb, 0⟩ ∧
    (recordSuccess (canMakeRequest (canMakeRequest cb now).cb now2).cb).state =
      CircuitState.CLOSED ∧
    (recordSuccess (canMakeRequest (canMakeRequest cb now).cb now2).cb).failureCount = 0 ∧
    (recordFailure (canMakeRequest (canMakeRequest cb now).cb now2).cb e t).state =
      CircuitState.OPEN ∧
    (recordFailure (canMakeRequest (canMakeRequest cb now).cb now2).cb e t).failureCount =
      CIRCUIT_BREAKER_THRESHOLD := by
  obtain ⟨st, fc, lf, ha, hn⟩ := cb
  simp only at hopen
  subst hopen
  have h1 : canMakeRequest ⟨CircuitState.OPEN, fc, lf, ha, hn⟩ now =
      ⟨⟨CircuitState.HALF_OPEN, fc, lf, 0, hn⟩, true, none⟩ := by
    unfold canMakeRequest
    simp only
    rw [if_pos helapsed]
  rw [h1]
  have h2 : canMakeRequest ⟨CircuitState.HALF_OPEN, fc, lf, 0, hn⟩ now2 =
      ⟨⟨CircuitState.HALF_OPEN, fc, lf, 1, hn⟩, true, none⟩ := by
    unfold canMakeRequest
    simp only
    rw [if_pos (by norm_num [CIRCUIT_BREAKER_HALF_OPEN_REQUESTS])]
  rw [h2]
  refine ⟨rfl, rfl, rfl, rfl, rfl, rfl, ?_, ?_, ?_, ?_, ?_⟩
  · exact admitSeq_halfopen_saturated ⟨CircuitState.HALF_OPEN, fc, lf, 1, hn⟩ rfl
      (by norm_num [CIRCUIT_BREAKER_HALF_OPEN_REQUESTS]) ts
  · simp [recordSuccess]
  · simp [recordSuccess]
  · simp [recordFailure, hna]
  · simp [recordFailure, hna]

/-- Witness for the amended claim C2 on a concrete elapsed-timeout breaker. -/
theorem hardcover_c2_witness :
    (canMakeRequest cbOpenElapsed 60000).allowed = true ∧
    (canMakeRequest cbOpenElapsed 60000).cb.state = CircuitState.HALF_OPEN ∧
    (canMakeRequest cbOpenElapsed 60000).cb.halfOpenAttempts = 0 ∧
    (canMakeRequest (canMakeRequest cbOpenElapsed 60000).cb 60001).allowed = true ∧
    (canMakeRequest (canMakeRequest cbOpenElapsed 60000).cb 60001).cb.state =
      CircuitState.HALF_OPEN ∧
    (canMakeRequest (canMakeRequest cbOpenElapsed 60000).cb 60001).cb.halfOpenAttempts = 1 ∧
    admitSeq (canMakeRequest (canMakeRequest cbOpenElapsed 60000).cb 60001).cb [70000] =
      ⟨(canMakeRequest (canMakeRequest cbOpenElapsed 60000).cb 60001).cb, 0⟩ ∧
    (recordSuccess (canMakeRequest (canMakeRequest cbOpenElapsed 60000).cb 60001).cb).state =
      CircuitState.CLOSED ∧
    (recordSuccess
        (canMakeRequest (canMakeRequest cbOpenElapsed 60000).cb 60001).cb).failureCount = 0 ∧
    (recordFailure (canMakeRequest (canMakeRequest cbOpenElapsed 60000).cb 60001).cb
        "HARDCOVER_SERVER_ERROR" 60002).state = CircuitState.OPEN ∧
    (recordFailure (canMakeRequest (canMakeRequest cbOpenElapsed 60000).cb 60001).cb
        "HARDCOVER_SERVER_ERROR" 60002).failureCount = CIRCUIT_BREAKER_THRESHOLD :=
  hardcover_c2_half_open_amended cbOpenElapsed 60000 60001 60002 [70000]
    "HARDCOVER_SERVER_ERROR" rfl (by decide) (by decide)

/-- Removing a filtered-out member strictly shrinks a filter. -/
theorem filter_length_lt_of_mem {p : Int → Bool} {l : List Int} {x : Int}
    (hx : x ∈ l) (hpx : p x = false) : (l.filter p).length < l.length := by
  induction l with
  | nil => cases hx
  | cons y ys ih =>
    rcases List.mem_cons.mp hx with h | h
    · have hpy : p y = false := by rw [← h]; exact hpx
      simp only [List.filter_cons, hpy, Bool.false_eq_true, if_false, List.length_cons]
      exact Nat.lt_succ_of_le (List.length_filter_le _ _)
    · cases hpy : p y
      · simp only [List.filter_cons, hpy, Bool.false_eq_true, if_false, List.length_cons]
        exact Nat.lt_succ_of_lt (ih h)
      · simp only [List.filter_cons, hpy, if_true, List.length_cons]
        exact Nat.succ_lt_succ (ih h)

/-- One `checkRateLimit` call, starting from a state satisfying the throttle
invariant and issued no earlier than the previous admission: at most
`buffer` timestamps survive the age filter, the invariant is preserved from
the new admission time on, the caller is never admitted before its arrival
(and never rejected), and when the retained count reaches the budget the
admission is delayed to exactly `oldest + RATE_LIMIT_WINDOW + 100`. -/
theorem checkRateLimit_step (B : Nat) (st : List Int) (a now : Int)
    (hB : 1 ≤ B) (hinv : throttleInv B st a) (hnow : a ≤ now) :
    (checkRateLimit B st now).retained.length ≤ B ∧
    throttleInv B (checkRateLimit B st now).newList (checkRateLimit B st now).admitAt ∧
    now ≤ (checkRateLimit B st now).admitAt ∧
    (B ≤ (checkRateLimit B st now).retained.length →
      (checkRateLimit B st now).admitAt =
        (checkRateLimit B st now).retained.headD 0 + RATE_LIMIT_WINDOW + 100) := by
  have hlen : (st.filter fun u => now - u < RATE_LIMIT_WINDOW).length ≤ B :=
    hinv now hnow
  by_cases hc : B ≤ (st.filter fun u => now - u < RATE_LIMIT_WINDOW).length
  · rcases hts : st.filter fun u => now - u < RATE_LIMIT_WINDOW with _ | ⟨o, restts⟩
    · rw [hts] at hc
      simp at hc
      omega
    · have homem : o ∈ st.filter fun u => now - u < RATE_LIMIT_WINDOW := by
        rw [hts]
        exact List.mem_cons_self _ _
      have hoage : now - o < RATE_LIMIT_WINDOW := by
        have := (List.mem_filter.mp homem).2
        simpa using this
      have hhead : (st.filter fun u => now - u < RATE_LIMIT_WINDOW).headD 0 = o := by
        rw [hts]
        rfl
      have hout : checkRateLimit B st now =
          ⟨(st.filter fun u => now - u < RATE_LIMIT_WINDOW),
            (st.filter fun u => now - u < RATE_LIMIT_WINDOW) ++ [now],
            now + (RATE_LIMIT_WINDOW - (now - o) + 100)⟩ := by
        simp only [checkRateLimit]
        rw [if_pos hc, hhead,
          if_pos (show (0 : Int) < RATE_LIMIT_WINDOW - (now - o) + 100 by omega)]
      rw [hout]
      refine ⟨hlen, ?_, ?_, ?_⟩
      · show throttleInv B ((st.filter fun u => now - u < RATE_LIMIT_WINDOW) ++ [now])
          (now + (RATE_LIMIT_WINDOW - (now - o) + 100))
        intro u hu
        rw [List.filter_append, List.length_append]
        have h1 : ((st.filter fun v => now - v < RATE_LIMIT_WINDOW).filter
            fun v => u - v < RATE_LIMIT_WINDOW).length <
            (st.filter fun v => now - v < RATE_LIMIT_WINDOW).length := by
          refine filter_length_lt_of_mem homem ?_
          simp only [decide_eq_false_iff_not, not_lt]
          omega
        have h2 : (([now] : List Int).filter fun v => u - v < RATE_LIMIT_WINDOW).length ≤ 1 :=
          List.length_filter_le _ _
        omega
      · show now ≤ now + (RATE_LIMIT_WINDOW - (now - o) + 100)
        omega
      · intro _
        show now + (RATE_LIMIT_WINDOW - (now - o) + 100) =
          (st.filter fun u => now - u < RATE_LIMIT_WINDOW).headD 0 +
            RATE_LIMIT_WINDOW + 100
        rw [hhead]
        omega
  · have hout : checkRateLimit B st now =
        ⟨(st.filter fun u => now - u < RATE_LIMIT_WINDOW),
          (st.filter fun u => now - u < RATE_LIMIT_WINDOW) ++ [now], now⟩ := by
      simp only [checkRateLimit]
      rw [if_neg hc]
    rw [hout]
    have hlt : (st.filter fun u => now - u < RATE_LIMIT_WINDOW).length < B :=
      lt_of_not_ge hc
    refine ⟨hlen, ?_, le_refl now, fun habs => absurd habs hc⟩
    show throttleInv B ((st.filter fun u => now - u < RATE_LIMIT_WINDOW) ++ [now]) now
    intro u _
    rw [List.filter_append, List.length_append]
    have h1 : ((st.filter fun v => now - v < RATE_LIMIT_WINDOW).filter
        fun v => u - v < RATE_LIMIT_WINDOW).length ≤
        (st.filter fun v => now - v < RATE_LIMIT_WINDOW).length :=
      List.length_filter_le _ _
    have h2 : (([now] : List Int).filter fun v => u - v < RATE_LIMIT_WINDOW).length ≤ 1 :=
      List.length_filter_le _ _
    omega

/-- Every sequentially valid call trace preserves the throttle invariant:
each call retains at most `buffer` timestamps, is admitted (never rejected),
and a budget-full call is delayed to `oldest + RATE_LIMIT_WINDOW + 100`. -/
theorem throttleOuts_spec (B : Nat) (hB : 1 ≤ B) :
    ∀ (arrivals st : List Int) (a : Int),
      throttleInv B st a → throttleValid B st a arrivals →
      (throttleOuts B st arrivals).length = arrivals.length ∧
      ∀ o ∈ throttleOuts B st arrivals,
        o.retained.length ≤ B ∧
        (B ≤ o.retained.length →
          o.admitAt = o.retained.headD 0 + RATE_LIMIT_WINDOW + 100) := by
  intro arrivals
  induction arrivals with
  | nil =>
    intro st a _ _
    exact ⟨rfl, by simp [throttleOuts]⟩
  | cons now rest ih =>
    intro st a hinv hval
    obtain ⟨hle, hvrest⟩ := hval
    obtain ⟨s1, s2, _, s4⟩ := checkRateLimit_step B st a now hB hinv hle
    obtain ⟨t1, t2⟩ :=
      ih (checkRateLimit B st now).newList (checkRateLimit B st now).admitAt s2 hvrest
    constructor
    · simp [throttleOuts, t1]
    · intro o ho
      have hunf : throttleOuts B st (now :: rest) =
          checkRateLimit B st now ::
            throttleOuts B (checkRateLimit B st now).newList rest := by
        simp [throttleOuts]
      rw [hunf] at ho
      rcases List.mem_cons.mp ho with h | h
      · rw [h]
        exact ⟨s1, s4⟩
      · exact t2 o h

/-- Claim C4, counterexample: with a budget of 2 the sequentially valid
arrival trace `[0, 1, 2, 60100, 60101]` is admitted at times
`[0, 1, 60100, 60100, 60101]` — three admissions inside the rolling
60-second window starting at 60100, exceeding the budget.  (The delayed
third request records its pre-sleep arrival time 2, which has already left
the window by its admission at 60100, so the throttle forgets it.) -/
theorem hardcover_c4_window_counterexample :
    throttleValid (effectiveBuffer 2) [] 0 [0, 1, 2, 60100, 60101] ∧
    throttleAdmissions (effectiveBuffer 2) [0, 1, 2, 60100, 60101] =
      [0, 1, 60100, 60100, 60101] ∧
    ((throttleAdmissions (effectiveBuffer 2) [0, 1, 2, 60100, 60101]).filter
        fun adm => 60100 ≤ adm ∧ adm < 60100 + RATE_LIMIT_WINDOW).length = 3 ∧
    ¬(((throttleAdmissions (effectiveBuffer 2) [0, 1, 2, 60100, 60101]).filter
        fun adm => 60100 ≤ adm ∧ adm < 60100 + RATE_LIMIT_WINDOW).length ≤
      effectiveBuffer 2) := by
  refine ⟨?_, by decide, by decide, by decide⟩
  simp only [throttleValid, checkRateLimit, effectiveBuffer, RATE_LIMIT_WINDOW]
  norm_num

/-- Claim C4 (amended): the throttle never rejects — every arrival in a
sequentially valid trace is admitted — and whenever at least the budget
(default 50 via `effectiveBuffer`) of recorded timestamps survive the
60-second age filter, the caller is delayed until the oldest recorded
timestamp exits the window plus a 100 ms margin.  The at-most-budget bound
holds for the recorded timestamps surviving the filter at each check, not
for admission times: because a delayed request records its pre-sleep arrival
time, more than budget-many admissions can fall inside one rolling
60-second window (see the counterexample). -/
theorem hardcover_c4_throttle_amended (n : Nat) (arrivals : List Int) (a0 : Int)
    (hvalid : throttleValid (effectiveBuffer n) [] a0 arrivals) :
    (throttleOuts (effectiveBuffer n) [] arrivals).length = arrivals.length ∧
    ∀ o ∈ throttleOuts (effectiveBuffer n) [] arrivals,
      o.retained.length ≤ effectiveBuffer n ∧
      (effectiveBuffer n ≤ o.retained.length →
        o.admitAt = o.retained.headD 0 + RATE_LIMIT_WINDOW + 100) := by
  have hB : 1 ≤ effectiveBuffer n := by
    unfold effectiveBuffer
    split <;> omega
  have hinv : throttleInv (effectiveBuffer n) [] a0 := by
    intro t _
    simp
  exact throttleOuts_spec (effectiveBuffer n) hB arrivals [] a0 hinv hvalid

/-- Witness for the amended claim C4 on a concrete two-arrival trace. -/
theorem hardcover_c4_witness :
    (throttleOuts (effectiveBuffer 2) [] [0, 1]).length = ([0, 1] : List Int).length ∧
    ∀ o ∈ throttleOuts (effectiveBuffer 2) [] [0, 1],
      o.retained.length ≤ effectiveBuffer 2 ∧
      (effectiveBuffer 2 ≤ o.retained.length →
        o.admitAt = o.retained.headD 0 + RATE_LIMIT_WINDOW + 100) :=
  hardcover_c4_throttle_amended 2 [0, 1] 0 (by
    simp only [throttleValid, checkRateLimit, effectiveBuffer, RATE_LIMIT_WINDOW]
    norm_num)

end Readest
